import Mathlib

/-!
A verification development for the `httpsify` gateway (`httpsify.go`).

The Go source is shallowly embedded: Go strings become `List Char`
(byte-for-byte for the ASCII data the program manipulates), the
`net/http` header map becomes an association list from canonical header
keys to value lists, and the side-effecting handlers become pure
functions returning explicit outcome values.  Every definition below is
translated from the corresponding lines of `httpsify.go`.
-/

set_option maxRecDepth 4096

/-- Go strings are modelled as lists of characters. -/
abbrev Str : Type := List Char

/-- The Go literal `"https://"`. -/
def httpsLit : Str := ['h', 't', 't', 'p', 's', ':', '/', '/']

/-- The Go literal `"http://"`. -/
def httpLit : Str := ['h', 't', 't', 'p', ':', '/', '/']

/-- The Go literal `"ws://"`. -/
def wsLit : Str := ['w', 's', ':', '/', '/']

/-- The Go literal `"localhost"`. -/
def localhostLit : Str := ['l', 'o', 'c', 'a', 'l', 'h', 'o', 's', 't']

/-- The Go literal `"websocket"`. -/
def websocketLit : Str := ['w', 'e', 'b', 's', 'o', 'c', 'k', 'e', 't']

/-- The canonical header key `"Upgrade"`. -/
def upgradeKey : Str := ['U', 'p', 'g', 'r', 'a', 'd', 'e']

/-- The canonical header key `"X-Forwarded-Proto"`. -/
def xfpKey : Str :=
  ['X', '-', 'F', 'o', 'r', 'w', 'a', 'r', 'd', 'e', 'd', '-', 'P', 'r', 'o', 't', 'o']

/-- The canonical header key `"X-Forwarded-For"`. -/
def xffKey : Str :=
  ['X', '-', 'F', 'o', 'r', 'w', 'a', 'r', 'd', 'e', 'd', '-', 'F', 'o', 'r']

/-- The Go literal `"https"` (the forced `X-Forwarded-Proto` value). -/
def httpsVal : Str := ['h', 't', 't', 'p', 's']

/-- The Go literal `": not found"` followed by the newline that
`http.Error` appends via `fmt.Fprintln`. -/
def notFoundMsg : Str := [':', ' ', 'n', 'o', 't', ' ', 'f', 'o', 'u', 'n', 'd', '\n']

/-- The Go literal `"Host: "` used by the tunnel replay block. -/
def hostLabel : Str := ['H', 'o', 's', 't', ':', ' ']

/-- The Go literal `": "` separating a header key from its value. -/
def colonSpace : Str := [':', ' ']

/-- A single newline, the line terminator used by the tunnel replay block. -/
def nl : Str := ['\n']

/-- A single space. -/
def spaceLit : Str := [' ']

/-- The body written by `http.Error` when hijacking is unsupported:
`"webserver doesn't support hijacking"` (the apostrophe is `Char.ofNat 39`). -/
def hijackUnsupportedMsg : Str :=
  ['w', 'e', 'b', 's', 'e', 'r', 'v', 'e', 'r', ' ', 'd', 'o', 'e', 's', 'n',
   Char.ofNat 39, 't', ' ', 's', 'u', 'p', 'p', 'o', 'r', 't', ' ',
   'h', 'i', 'j', 'a', 'c', 'k', 'i', 'n', 'g']

/-- Go `unicode.IsSpace`: the Unicode White_Space code points. -/
def goIsSpace (c : Char) : Bool :=
  let n := c.toNat
  n = 9 || n = 10 || n = 11 || n = 12 || n = 13 || n = 32 || n = 133 || n = 160 ||
  n = 0x1680 || (0x2000 ≤ n && n ≤ 0x200A) || n = 0x2028 || n = 0x2029 ||
  n = 0x202F || n = 0x205F || n = 0x3000

/-- Go `strings.TrimSpace`: drop leading and trailing white space. -/
def trimSpace (s : Str) : Str :=
  ((s.dropWhile goIsSpace).reverse.dropWhile goIsSpace).reverse

/-- Go `strings.TrimPrefix(u, "https://")` as used at httpsify.go:97. -/
def dropHttps (s : Str) : Str :=
  if httpsLit.isPrefixOf s then s.drop httpsLit.length else s

/-- Go `strings.TrimRight(u, "/")`: drop every trailing slash. -/
def trimRightSlash (s : Str) : Str :=
  (s.reverse.dropWhile (fun c => c == '/')).reverse

/-- Go `strings.TrimLeft(s, "/")`: drop every leading slash
(httpsify.go:118). -/
def trimLeftSlash (s : Str) : Str :=
  s.dropWhile (fun c => c == '/')

/-- httpsify.go:97, first statement of `fixUrl`:
`u = strings.TrimPrefix(strings.TrimSpace(u), "https://")`. -/
def fixStage1 (u : Str) : Str :=
  dropHttps (trimSpace u)

/-- httpsify.go:98-100: `if strings.Index(u, ":") == 0 { u = "localhost" + u }`.
`strings.Index(u, ":") == 0` holds exactly when the first character is a colon. -/
def fixStage2 (u : Str) : Str :=
  let u1 := fixStage1 u
  if u1.head? = some ':' then localhostLit ++ u1 else u1

/-- httpsify.go:101-103:
`if !strings.HasPrefix(u, "ws://") && !strings.HasPrefix(u, "http://") { u = "http://" + u }`. -/
def fixStage3 (u : Str) : Str :=
  let u2 := fixStage2 u
  if !(wsLit.isPrefixOf u2) && !(httpLit.isPrefixOf u2) then httpLit ++ u2 else u2

/-- httpsify.go:96-106, the URL normalizer `fixUrl`: trim an `https://`
prefix and surrounding whitespace, prefix a bare `:port` with `localhost`,
force an `http://` scheme when neither `ws://` nor `http://` is present,
and drop trailing slashes. -/
def fixUrl (u : Str) : Str :=
  trimRightSlash (fixStage3 u)

/-- ASCII case folding, modelling Go `strings.ToLower` on the ASCII data
this program compares (the only comparison target is `"websocket"`). -/
def goToLower (c : Char) : Char :=
  if 'A' ≤ c ∧ c ≤ 'Z' then Char.ofNat (c.toNat + 32) else c

/-- Go `strings.ToLower` applied character-wise. -/
def toLowerStr (s : Str) : Str :=
  s.map goToLower

/-- Go `strings.SplitN(s, ":", 2)[0]`: everything before the first colon
(the whole string when no colon occurs), used at httpsify.go:111 and :117. -/
def stripPort (s : Str) : Str :=
  s.takeWhile (fun c => !(c == ':'))

/-- Go `strings.Split(s, ",")` (httpsify.go:52). -/
def splitComma : Str → List Str
  | [] => [[]]
  | ',' :: rest => [] :: splitComma rest
  | c :: rest =>
    match splitComma rest with
    | [] => [[c]]
    | h :: t => (c :: h) :: t

/-- Go `strings.SplitN(zone, "->", 2)` (httpsify.go:53): the part before
the first `->`, and the part after it when the separator occurs. -/
def splitArrow : Str → Str × Option Str
  | [] => ([], none)
  | '-' :: '>' :: rest => ([], some rest)
  | c :: rest =>
    match splitArrow rest with
    | (a, b) => (c :: a, b)

/-- Pointwise update of the `domain_backend` map (`map[string]string`
assignment at httpsify.go:58). -/
def mapUpd (m : Str → Option Str) (k v : Str) : Str → Option Str :=
  fun x => if x = k then some v else m x

/-- httpsify.go:52-60: build `domain_backend` and `whitelisted` from the
comma-separated `-domains` flag and the default `-backend` target.  Each
zone is split on `->` at most once, a missing target falls back to the
default, the target is normalized with `fixUrl` before storage, and the
domain is appended to the whitelist. -/
def registryStep (backend : Str) (acc : (Str → Option Str) × List Str)
    (zone : Str) : (Str → Option Str) × List Str :=
  let p := splitArrow zone
  let target := fixUrl (match p.2 with | none => backend | some t => t)
  (mapUpd acc.1 p.1 target, acc.2 ++ [p.1])

/-- httpsify.go:52-60: the whole loop, folded over the zone declarations
starting from the empty map and empty whitelist. -/
def registryOf (domains backend : Str) : (Str → Option Str) × List Str :=
  (splitComma domains).foldl (registryStep backend) (fun _ => none, [])

/-- The `net/http` header map: an association list from canonical header
keys to lists of values (Go `http.Header`, i.e. `map[string][]string`). -/
abbrev Header : Type := List (Str × List Str)

/-- `r.Header[k]` read: the value list stored under `k`, `[]` (Go `nil`)
when the key is absent. -/
def hGetAll : Header → Str → List Str
  | [], _ => []
  | (k, vs) :: rest, key => if k = key then vs else hGetAll rest key

/-- `r.Header.Get(k)`: the first stored value, `""` when there is none. -/
def hGet (h : Header) (key : Str) : Str :=
  match hGetAll h key with
  | [] => []
  | v :: _ => v

/-- `r.Header[k] = vs` write: replace the binding for `k`, or append a new
binding when `k` is absent. -/
def hSet : Header → Str → List Str → Header
  | [], key, vs => [(key, vs)]
  | (k, old) :: rest, key, vs =>
    if k = key then (key, vs) :: rest else (k, old) :: hSet rest key vs

/-- The parsed inbound request (`*http.Request`), restricted to the fields
`httpsify.go` reads: `r.Host`, `r.Method`, `r.URL.RequestURI()`, `r.Proto`,
`r.Header`, `r.Body` (as the byte stream it will yield), `r.RemoteAddr`. -/
structure GoRequest where
  host : Str
  method : Str
  requestURI : Str
  proto : Str
  header : Header
  body : Str
  remoteAddr : Str
deriving DecidableEq

/-- httpsify.go:118: the upstream URL string
`domain_backend[r.Host] + "/" + strings.TrimLeft(r.URL.RequestURI(), "/")`. -/
def upstreamURL (b uri : Str) : Str :=
  b ++ '/' :: trimLeftSlash uri

/-- httpsify.go:111,116,117: the in-place mutations the handler performs on
a request to a registered host before delegating — strip the port from
`r.Host`, overwrite `X-Forwarded-Proto` with `{"https"}`, and append the
port-stripped `r.RemoteAddr` to `X-Forwarded-For`. -/
def mutateRequest (r : GoRequest) : GoRequest :=
  let h1 := hSet r.header xfpKey [httpsVal]
  let h2 := hSet h1 xffKey (hGetAll h1 xffKey ++ [stripPort r.remoteAddr])
  { r with host := stripPort r.host, header := h2 }

/-- The outcome of one `handler` invocation (httpsify.go:109-134): a 501
error response, a delegation to the websocket tunnel proxy, or a
delegation to the single-host reverse proxy, the latter two carrying the
computed upstream URL and the mutated request. -/
inductive Dispatch where
  | notFound (status : Nat) (body : Str)
  | tunnel (upstream : Str) (req : GoRequest)
  | forward (upstream : Str) (req : GoRequest)
deriving DecidableEq

/-- httpsify.go:109-134, the proxy handler: strip the port from the Host,
answer 501 (`http.StatusNotImplemented`) with `host + ": not found"` when
the host is not registered, otherwise rewrite the forwarding headers,
compute the upstream URL, and route on the lowercased `Upgrade` header. -/
def handler (reg : Str → Option Str) (r : GoRequest) : Dispatch :=
  let host := stripPort r.host
  match reg host with
  | none => .notFound 501 (host ++ notFoundMsg)
  | some b =>
    let r2 := mutateRequest r
    let u := upstreamURL b r.requestURI
    if toLowerStr (hGet r2.header upgradeKey) = websocketLit then
      .tunnel u r2
    else
      .forward u r2

/-- httpsify.go:158-162: the inner header loop of the replay block — one
`k + ": " + v + "\n"` line per stored value of one key. -/
def valueLines (k : Str) : List Str → Str
  | [] => []
  | v :: vs => k ++ colonSpace ++ v ++ nl ++ valueLines k vs

/-- httpsify.go:158-162: the full header loop of the replay block. -/
def headerBlock : Header → Str
  | [] => []
  | (k, vs) :: rest => valueLines k vs ++ headerBlock rest

/-- httpsify.go:156-163: the replay block `message` — request line, `Host`
line, one line per header value, and the terminating blank line, all with
bare `\n` endings. -/
def tunnelMessage (r : GoRequest) : Str :=
  r.method ++ spaceLit ++ r.requestURI ++ spaceLit ++ r.proto ++ nl
    ++ (hostLabel ++ r.host ++ nl)
    ++ headerBlock r.header
    ++ nl

/-- httpsify.go:164: the byte stream the tunnel writes to the backend,
`io.MultiReader(strings.NewReader(message), r.Body, clientConn)` — the
replay block, then the request body, then the client's raw bytes. -/
def tunnelBackendStream (r : GoRequest) (clientBytes : Str) : Str :=
  tunnelMessage r ++ r.body ++ clientBytes

/-- The observable outcome of one `NewWebsocketReverseProxy` invocation:
the HTTP status written (if any), the response body, whether the client
socket was hijacked, and the byte stream written to the backend (if a
tunnel was established). -/
structure TunnelResult where
  status : Option Nat
  body : Str
  hijacked : Bool
  backendStream : Option Str
deriving DecidableEq

/-- httpsify.go:137-167, the websocket tunnel proxy.  The environment's
effects are passed explicitly: `dialRes` is the result of
`net.Dial("tcp", u.Host)` (carrying the error text on failure),
`hijackSupported` is whether the `ResponseWriter` implements
`http.Hijacker`, and `hijackRes` is the result of `hj.Hijack()`.  A dial
failure answers 500 with the error text; a missing or failed hijack
answers 500; otherwise the tunnel writes the replay block, the body and
the client bytes to the backend. -/
def websocketProxy (dialRes : Except Str Unit) (hijackSupported : Bool)
    (hijackRes : Except Str Unit) (r : GoRequest) (clientBytes : Str) : TunnelResult :=
  match dialRes with
  | .error e => ⟨some 500, e ++ nl, false, none⟩
  | .ok _ =>
    if hijackSupported then
      match hijackRes with
      | .error e => ⟨some 500, e ++ nl, false, none⟩
      | .ok _ => ⟨none, [], true, some (tunnelBackendStream r clientBytes)⟩
    else
      ⟨some 500, hijackUnsupportedMsg ++ nl, false, none⟩

/-- The outbound request handed to `httputil.ReverseProxy`'s director,
restricted to the fields httpsify.go:125-129 touches. -/
structure OutRequest where
  host : Str
  url : Str
  header : Header
deriving DecidableEq

/-- httpsify.go:125-129: the overridden director — run the default
director `dd` first, then force `req.Host` to the (port-stripped) inbound
host and `req.URL` to the dispatcher's upstream URL. -/
def applyDirector (dd : OutRequest → OutRequest) (hostVal uVal : Str)
    (q : OutRequest) : OutRequest :=
  let q2 := dd q
  { q2 with host := hostVal, url := uVal }

/-- The request line of the replay block, as a line (no terminator). -/
def requestLine (r : GoRequest) : Str :=
  r.method ++ spaceLit ++ r.requestURI ++ spaceLit ++ r.proto

/-- The `Host` line of the replay block, as a line (no terminator). -/
def hostLine (r : GoRequest) : Str :=
  hostLabel ++ r.host

/-- One line per received header value, in header order: key `": "` value. -/
def headerLines : Header → List Str
  | [] => []
  | (k, vs) :: rest => vs.map (fun v => k ++ colonSpace ++ v) ++ headerLines rest

/-- Wire framing of a list of lines: each line followed by a bare `\n`. -/
def wireLines : List Str → Str
  | [] => []
  | l :: ls => l ++ nl ++ wireLines ls

/-- The total number of header values in a header map. -/
def countValues : Header → Nat
  | [] => 0
  | (_, vs) :: rest => vs.length + countValues rest

/-- Whether the last character of a string is not white space (true for
the empty string). -/
def lastNotSpace (s : Str) : Bool :=
  match s.getLast? with
  | none => true
  | some a => !goIsSpace a

/-- Demo normalizer input `"example.com/"`. -/
def demoUrlInput : Str := ['e', 'x', 'a', 'm', 'p', 'l', 'e', '.', 'c', 'o', 'm', '/']

/-- Demo zone declarations `"a.com,b.com->:9000"` (spec §8). -/
def demoZones1 : Str :=
  ['a', '.', 'c', 'o', 'm', ',', 'b', '.', 'c', 'o', 'm', '-', '>', ':', '9', '0', '0', '0']

/-- Demo default backend `":80"` (spec §8). -/
def demoBackend1 : Str := [':', '8', '0']

/-- Demo zone declarations `"x.com->:1,x.com->:2"` (spec §8). -/
def demoZones2 : Str :=
  ['x', '.', 'c', 'o', 'm', '-', '>', ':', '1', ',', 'x', '.', 'c', 'o', 'm', '-', '>', ':', '2']

/-- Demo zone declaration `"a.com->:9000/"` (a target with a trailing slash). -/
def demoZones3 : Str :=
  ['a', '.', 'c', 'o', 'm', '-', '>', ':', '9', '0', '0', '0', '/']

/-- The domain `"a.com"`. -/
def aCom : Str := ['a', '.', 'c', 'o', 'm']

/-- The domain `"b.com"`. -/
def bCom : Str := ['b', '.', 'c', 'o', 'm']

/-- The domain `"x.com"`. -/
def xCom : Str := ['x', '.', 'c', 'o', 'm']

/-- The normalized target `"http://localhost:80"`. -/
def tgt80 : Str :=
  ['h', 't', 't', 'p', ':', '/', '/', 'l', 'o', 'c', 'a', 'l', 'h', 'o', 's', 't', ':', '8', '0']

/-- The normalized target `"http://localhost:9000"`. -/
def tgt9000 : Str :=
  ['h', 't', 't', 'p', ':', '/', '/', 'l', 'o', 'c', 'a', 'l', 'h', 'o', 's', 't',
   ':', '9', '0', '0', '0']

/-- The normalized target `"http://localhost:2"`. -/
def tgt2 : Str :=
  ['h', 't', 't', 'p', ':', '/', '/', 'l', 'o', 'c', 'a', 'l', 'h', 'o', 's', 't', ':', '2']

/-- Demo request URI `"/foo?x=1"`. -/
def demoURI : Str := ['/', 'f', 'o', 'o', '?', 'x', '=', '1']

/-- Demo upgrade request: `Host: a.com:443`, `Upgrade: WebSocket`,
remote address `1.2.3.4:5000`. -/
def demoReqUpgrade : GoRequest :=
  { host := ['a', '.', 'c', 'o', 'm', ':', '4', '4', '3']
    method := ['G', 'E', 'T']
    requestURI := ['/', 'c', 'h', 'a', 't']
    proto := ['H', 'T', 'T', 'P', '/', '1', '.', '1']
    header := [(upgradeKey, [['W', 'e', 'b', 'S', 'o', 'c', 'k', 'e', 't']])]
    body := []
    remoteAddr := ['1', '.', '2', '.', '3', '.', '4', ':', '5', '0', '0', '0'] }

/-- Demo plain request: `Host: a.com`, no `Upgrade` header, a pre-existing
`X-Forwarded-For: 9.9.9.9`, URI `/foo?x=1`. -/
def demoReqPlain : GoRequest :=
  { host := ['a', '.', 'c', 'o', 'm']
    method := ['G', 'E', 'T']
    requestURI := demoURI
    proto := ['H', 'T', 'T', 'P', '/', '1', '.', '1']
    header := [(xffKey, [['9', '.', '9', '.', '9', '.', '9']])]
    body := []
    remoteAddr := ['1', '.', '2', '.', '3', '.', '4', ':', '5', '0', '0', '0'] }

/-- Demo request for an unregistered host `evil.test:443`. -/
def demoReqEvil : GoRequest :=
  { host := ['e', 'v', 'i', 'l', '.', 't', 'e', 's', 't', ':', '4', '4', '3']
    method := ['G', 'E', 'T']
    requestURI := ['/']
    proto := ['H', 'T', 'T', 'P', '/', '1', '.', '1']
    header := []
    body := []
    remoteAddr := ['1', '.', '2', '.', '3', '.', '4', ':', '5', '0', '0', '0'] }

/-- The hostname `"evil.test"`. -/
def evilHost : Str := ['e', 'v', 'i', 'l', '.', 't', 'e', 's', 't']

/-- A demo default director that clobbers both the host and the URL. -/
def demoDD : OutRequest → OutRequest :=
  fun q => { q with host := ['z'], url := ['z'] }

/-- A demo outbound request. -/
def demoOutReq : OutRequest := { host := [], url := [], header := [] }

/-- `List.isPrefixOf` agrees with the prefix order (alias). -/
theorem isPrefixOfIff (l m : Str) : l.isPrefixOf m = true ↔ l <+: m :=
  List.isPrefixOf_iff_prefix

/-- Of two prefixes of one list, the shorter is a prefix of the longer (alias). -/
theorem prefixOfLen {l₁ l₂ l₃ : Str} (h1 : l₁ <+: l₃) (h2 : l₂ <+: l₃)
    (h : l₁.length ≤ l₂.length) : l₁ <+: l₂ :=
  List.prefix_of_prefix_length_le h1 h2 h

/-- The head of what `dropWhile` keeps fails the predicate. -/
theorem dropWhileHeadFalse {α : Type} (p : α → Bool) :
    ∀ (l : List α) (a : α), (l.dropWhile p).head? = some a → p a = false := by
  intro l
  induction l with
  | nil => intro a h; simp at h
  | cons c t ih =>
    intro a h
    cases hc : p c with
    | true => rw [List.dropWhile_cons_of_pos hc] at h; exact ih a h
    | false =>
      rw [List.dropWhile_cons_of_neg (by simp [hc])] at h
      simp at h
      rw [← h]
      exact hc

/-- `dropWhile` is the identity when the head already fails the predicate. -/
theorem dropWhileEqSelf {α : Type} (p : α → Bool) (l : List α)
    (h : ∀ a, l.head? = some a → p a = false) : l.dropWhile p = l := by
  cases l with
  | nil => rfl
  | cons c t => exact List.dropWhile_cons_of_neg (by simp [h c rfl])

/-- `dropWhile` is idempotent. -/
theorem dropWhileIdem {α : Type} (p : α → Bool) (l : List α) :
    (l.dropWhile p).dropWhile p = l.dropWhile p :=
  dropWhileEqSelf p _ (fun a h => dropWhileHeadFalse p l a h)

/-- `trimRightSlash` is a prefix of its argument. -/
theorem trimRightSlashPrefix (l : Str) : trimRightSlash l <+: l := by
  have h := List.dropWhile_suffix (l := l.reverse) (fun c => c == '/')
  have h2 : trimRightSlash l <+: l.reverse.reverse := by
    rw [trimRightSlash]
    exact List.reverse_prefix.mpr h
  simpa using h2

/-- `trimRightSlash` never ends with a slash. -/
theorem trimRightSlashLast (l : Str) (a : Char)
    (h : (trimRightSlash l).getLast? = some a) : a ≠ '/' := by
  rw [trimRightSlash, List.getLast?_reverse] at h
  have := dropWhileHeadFalse (fun c => c == '/') l.reverse a h
  simpa using this

/-- `trimRightSlash` is idempotent. -/
theorem trimRightSlashIdem (l : Str) :
    trimRightSlash (trimRightSlash l) = trimRightSlash l := by
  simp [trimRightSlash, dropWhileIdem]

/-- `trimSpace` is the identity when neither end is white space. -/
theorem trimSpaceEqSelf (r : Str)
    (h1 : ∀ a, r.head? = some a → goIsSpace a = false)
    (h2 : ∀ a, r.getLast? = some a → goIsSpace a = false) :
    trimSpace r = r := by
  have e1 : r.dropWhile goIsSpace = r := dropWhileEqSelf _ _ h1
  have e2 : r.reverse.dropWhile goIsSpace = r.reverse := by
    refine dropWhileEqSelf _ _ (fun a ha => h2 a ?_)
    rwa [List.head?_reverse] at ha
  simp [trimSpace, e1, e2]

/-- `fixUrl` never produces a string ending in a slash. -/
theorem fixUrlLast (s : Str) (a : Char) (h : (fixUrl s).getLast? = some a) :
    a ≠ '/' :=
  trimRightSlashLast (fixStage3 s) a h

/-- The third normalization stage always carries a `ws://` or `http://`
prefix. -/
theorem fixStage3Scheme (u : Str) :
    httpLit <+: fixStage3 u ∨ wsLit <+: fixStage3 u := by
  cases hws : wsLit.isPrefixOf (fixStage2 u) with
  | true =>
    right
    have he : fixStage3 u = fixStage2 u := by simp [fixStage3, hws]
    rw [he]
    exact (isPrefixOfIff wsLit (fixStage2 u)).mp hws
  | false =>
    left
    cases hhttp : httpLit.isPrefixOf (fixStage2 u) with
    | true =>
      have he : fixStage3 u = fixStage2 u := by simp [fixStage3, hws, hhttp]
      rw [he]
      exact (isPrefixOfIff httpLit (fixStage2 u)).mp hhttp
    | false =>
      have he : fixStage3 u = httpLit ++ fixStage2 u := by simp [fixStage3, hws, hhttp]
      rw [he]
      exact ⟨fixStage2 u, rfl⟩

/-- A list beginning with `http://` cannot begin with `https://`. -/
theorem appendHttpNeHttps (u r : Str) : httpLit ++ u ≠ httpsLit ++ r := by
  intro h
  have h5 : (['h', 't', 't', 'p', ':'] : Str) = ['h', 't', 't', 'p', 's'] :=
    congrArg (List.take 5) h
  exact absurd h5 (by decide)

/-- A list beginning with `ws://` cannot begin with `https://`. -/
theorem appendWsNeHttps (u r : Str) : wsLit ++ u ≠ httpsLit ++ r := by
  intro h
  have h1 : (['w'] : Str) = ['h'] := congrArg (List.take 1) h
  exact absurd h1 (by decide)

/-- Reading back the key just written. -/
theorem hGetAllSetSelf : ∀ (h : Header) (k : Str) (vs : List Str),
    hGetAll (hSet h k vs) k = vs := by
  intro h
  induction h with
  | nil => intro k vs; simp [hSet, hGetAll]
  | cons kv rest ih =>
    intro k vs
    by_cases hk : kv.1 = k
    · simp [hSet, hGetAll, hk]
    · simp [hSet, hGetAll, hk, ih]

/-- Writing one key leaves every other key unchanged. -/
theorem hGetAllSetNe : ∀ (h : Header) (k' : Str) (vs : List Str) (k : Str),
    k' ≠ k → hGetAll (hSet h k' vs) k = hGetAll h k := by
  intro h
  induction h with
  | nil => intro k' vs k hne; simp [hSet, hGetAll, hne]
  | cons kv rest ih =>
    intro k' vs k hne
    obtain ⟨k0, vs0⟩ := kv
    by_cases hk : k0 = k'
    · subst hk
      simp [hSet, hGetAll, hne]
    · by_cases hk2 : k0 = k
      · simp [hSet, hGetAll, hk, hk2, Ne.symm hne]
      · simp [hSet, hGetAll, hk, hk2, ih k' vs k hne]

/-- The handler's header mutations do not touch the `Upgrade` header. -/
theorem hGetUpgradeMutate (r : GoRequest) :
    hGet (mutateRequest r).header upgradeKey = hGet r.header upgradeKey := by
  have h1 : xffKey ≠ upgradeKey := by decide
  have h2 : xfpKey ≠ upgradeKey := by decide
  simp [mutateRequest, hGet, hGetAllSetNe _ _ _ _ h1, hGetAllSetNe _ _ _ _ h2]

/-- The mutated request's `X-Forwarded-Proto` is exactly `{"https"}` and
its `X-Forwarded-For` is the received chain with the port-stripped remote
address appended. -/
theorem mutateRequestHeaders (r : GoRequest) :
    hGetAll (mutateRequest r).header xfpKey = [httpsVal] ∧
    hGetAll (mutateRequest r).header xffKey
      = hGetAll r.header xffKey ++ [stripPort r.remoteAddr] := by
  have hne : xffKey ≠ xfpKey := by decide
  have hne2 : xfpKey ≠ xffKey := by decide
  constructor
  · simp [mutateRequest, hGetAllSetNe _ _ _ _ hne, hGetAllSetSelf]
  · simp [mutateRequest, hGetAllSetSelf, hGetAllSetNe _ _ _ _ hne2]

/-- Every target stored by the registry fold is a `fixUrl` image. -/
theorem registryFoldValues (bk : Str) :
    ∀ (zs : List Str) (acc : (Str → Option Str) × List Str),
      (∀ d b, acc.1 d = some b → ∃ t, b = fixUrl t) →
      ∀ d b, ((zs.foldl (registryStep bk) acc).1 d = some b → ∃ t, b = fixUrl t) := by
  intro zs
  induction zs with
  | nil => intro acc hacc d b h; exact hacc d b h
  | cons z rest ih =>
    intro acc hacc d b h
    refine ih (registryStep bk acc z) ?_ d b h
    intro d' b' h'
    simp only [registryStep, mapUpd] at h'
    by_cases hd : d' = (splitArrow z).1
    · rw [if_pos hd] at h'
      exact ⟨_, (Option.some.injEq _ _ ▸ h').symm⟩
    · rw [if_neg hd] at h'
      exact hacc d' b' h'

/-- Every target stored in the registry is a `fixUrl` image. -/
theorem registryValues (doms bk d b : Str)
    (h : (registryOf doms bk).1 d = some b) : ∃ t, b = fixUrl t := by
  refine registryFoldValues bk (splitComma doms) (fun _ => none, []) ?_ d b h
  intro d' b' h'
  exact absurd h' (by simp)

/-- Leading slashes are absorbed by `trimLeftSlash`. -/
theorem trimLeftSlashReplicate (n : Nat) (v : Str) :
    trimLeftSlash (List.replicate n '/' ++ v) = trimLeftSlash v := by
  induction n with
  | zero => simp
  | succ m ih => simp [trimLeftSlash, List.replicate_succ]

/-- `trimLeftSlash` never keeps a leading slash. -/
theorem trimLeftSlashHead (s : Str) (a : Char)
    (h : (trimLeftSlash s).head? = some a) : a ≠ '/' := by
  have := dropWhileHeadFalse (fun c => c == '/') s a h
  simpa using this

/-- Unpacking `lastNotSpace`. -/
theorem lastNotSpaceSpec (s : Str) (h : lastNotSpace s = true) :
    ∀ a, s.getLast? = some a → goIsSpace a = false := by
  intro a ha
  rw [lastNotSpace, ha] at h
  simpa using h

/-- A string that already carries a `ws://` or `http://` scheme, does not
end in a slash, and does not end in white space is a fixed point of
`fixUrl`. -/
theorem fixUrlEqSelf (r : Str)
    (hp : httpLit <+: r ∨ wsLit <+: r)
    (hslash : ∀ a, r.getLast? = some a → a ≠ '/')
    (hws : ∀ a, r.getLast? = some a → goIsSpace a = false) :
    fixUrl r = r := by
  have rhead : r.head? = some 'h' ∨ r.head? = some 'w' := by
    cases hp with
    | inl h => obtain ⟨t, ht⟩ := h; left; rw [← ht]; rfl
    | inr h => obtain ⟨t, ht⟩ := h; right; rw [← ht]; rfl
  have hheadSpace : ∀ a, r.head? = some a → goIsSpace a = false := by
    intro a ha
    cases rhead with
    | inl h => rw [h] at ha; simp at ha; rw [← ha]; decide
    | inr h => rw [h] at ha; simp at ha; rw [← ha]; decide
  have e0 : trimSpace r = r := trimSpaceEqSelf r hheadSpace hws
  have hnotHttps : httpsLit.isPrefixOf r = false := by
    cases hb : httpsLit.isPrefixOf r with
    | false => rfl
    | true =>
      have hhs : httpsLit <+: r := (isPrefixOfIff _ _).mp hb
      cases hp with
      | inl h => exact absurd (prefixOfLen h hhs (by decide)) (by decide)
      | inr h => exact absurd (prefixOfLen h hhs (by decide)) (by decide)
  have e1 : fixStage1 r = r := by
    rw [fixStage1, e0, dropHttps, hnotHttps]
    simp
  have e2 : fixStage2 r = r := by
    rw [fixStage2, e1]
    cases rhead with
    | inl h => rw [h]; simp
    | inr h => rw [h]; simp
  have hb3 : (!(wsLit.isPrefixOf r) && !(httpLit.isPrefixOf r)) = false := by
    cases hp with
    | inl h =>
      have : httpLit.isPrefixOf r = true := (isPrefixOfIff _ _).mpr h
      simp [this]
    | inr h =>
      have : wsLit.isPrefixOf r = true := (isPrefixOfIff _ _).mpr h
      simp [this]
  have e3 : fixStage3 r = r := by
    rw [fixStage3, e2]
    simp only [hb3]
    simp
  have e4 : trimRightSlash r = r := by
    rw [trimRightSlash]
    have : r.reverse.dropWhile (fun c => c == '/') = r.reverse := by
      refine dropWhileEqSelf _ _ ?_
      intro a ha
      rw [List.head?_reverse] at ha
      simpa using hslash a ha
    rw [this, List.reverse_reverse]
  rw [fixUrl, e3, e4]

/-- The normalizer's output can never begin with `https://`: the output is
a prefix of stage 3, and stage 3 begins with `http://` or `ws://`. -/
theorem fixUrlNotHttpsAux (s : Str) (h : httpsLit <+: fixUrl s) : False := by
  have hpre : fixUrl s <+: fixStage3 s := trimRightSlashPrefix (fixStage3 s)
  have h2 : httpsLit <+: fixStage3 s := h.trans hpre
  cases fixStage3Scheme s with
  | inl hh =>
    exact absurd ((isPrefixOfIff _ _).mpr (prefixOfLen hh h2 (by decide))) (by decide)
  | inr hw =>
    exact absurd ((isPrefixOfIff _ _).mpr (prefixOfLen hw h2 (by decide))) (by decide)

/-- C10: for every input string the URL normalizer's output never begins
with `https://`, and hence every backend target stored in the Registry
designates a plaintext (non-TLS) connection. -/
theorem fixUrlNeverHttps :
    (∀ s, httpsLit.isPrefixOf (fixUrl s) = false) ∧
    (∀ doms bk d b, (registryOf doms bk).1 d = some b →
      httpsLit.isPrefixOf b = false) := by
  have base : ∀ s, httpsLit.isPrefixOf (fixUrl s) = false := by
    intro s
    cases hb : httpsLit.isPrefixOf (fixUrl s) with
    | false => rfl
    | true => exact (fixUrlNotHttpsAux s ((isPrefixOfIff _ _).mp hb)).elim
  refine ⟨base, ?_⟩
  intro doms bk d b h
  obtain ⟨t, ht⟩ := registryValues doms bk d b h
  rw [ht]
  exact base t

/-- C10 witness: the target stored for `b.com` is not `https://`-prefixed. -/
theorem fixUrlNeverHttpsWitness : httpsLit.isPrefixOf tgt9000 = false :=
  fixUrlNeverHttps.2 demoZones1 demoBackend1 bCom tgt9000 (by decide)

/-- C8 counterexample: on the input `""` the normalizer yields `"http:"`,
which has no scheme prefix, and a second application yields
`"http://http:"`, so `fixUrl` is not idempotent as claimed. -/
theorem fixUrlClaimCounterexample :
    fixUrl (fixUrl []) ≠ fixUrl [] ∧
    httpLit.isPrefixOf (fixUrl []) = false ∧
    wsLit.isPrefixOf (fixUrl []) = false := by
  decide

/-- C8 (amended): `fixUrl` is a total function whose output never ends in
a slash; and it is idempotent on every input whose normalized form still
carries a full `http://` or `ws://` scheme prefix and does not end in a
white-space character. -/
theorem fixUrlIdempotentAmended (s : Str) :
    (∀ a, (fixUrl s).getLast? = some a → a ≠ '/') ∧
    ((httpLit.isPrefixOf (fixUrl s) = true ∨ wsLit.isPrefixOf (fixUrl s) = true) →
      lastNotSpace (fixUrl s) = true →
      fixUrl (fixUrl s) = fixUrl s) := by
  constructor
  · exact fun a h => fixUrlLast s a h
  · intro hp hw
    refine fixUrlEqSelf (fixUrl s) ?_ (fun a h => fixUrlLast s a h) (lastNotSpaceSpec _ hw)
    cases hp with
    | inl h => exact Or.inl ((isPrefixOfIff _ _).mp h)
    | inr h => exact Or.inr ((isPrefixOfIff _ _).mp h)

/-- C8 witness: `fixUrl` is idempotent at `"example.com/"`. -/
theorem fixUrlIdempotentAmendedWitness :
    fixUrl (fixUrl demoUrlInput) = fixUrl demoUrlInput :=
  (fixUrlIdempotentAmended demoUrlInput).2 (Or.inl (by decide)) (by decide)

/-- C9: registry construction.  `"a.com,b.com->:9000"` with default `":80"`
maps `a.com` to `http://localhost:80` (default inherited) and `b.com` to
`http://localhost:9000` (target normalized), with allow-list
`[a.com, b.com]`; and in `"x.com->:1,x.com->:2"` the later declaration
overwrites the earlier one, leaving `x.com -> http://localhost:2`. -/
theorem registryConstructionExamples :
    (registryOf demoZones1 demoBackend1).1 aCom = some tgt80 ∧
    (registryOf demoZones1 demoBackend1).1 bCom = some tgt9000 ∧
    (registryOf demoZones1 demoBackend1).2 = [aCom, bCom] ∧
    (registryOf demoZones2 demoBackend1).1 xCom = some tgt2 := by
  decide

/-- `wireLines` distributes over list concatenation. -/
theorem wireLinesAppend (a b : List Str) :
    wireLines (a ++ b) = wireLines a ++ wireLines b := by
  induction a with
  | nil => simp [wireLines]
  | cons l ls ih => simp [wireLines, ih]

/-- The per-key loop of the replay block writes exactly one framed line
per stored value. -/
theorem valueLinesEq (k : Str) (vs : List Str) :
    valueLines k vs = wireLines (vs.map (fun v => k ++ colonSpace ++ v)) := by
  induction vs with
  | nil => rfl
  | cons v rest ih => simp [valueLines, wireLines, ih]

/-- The header loop of the replay block is the wire framing of one line
per header value. -/
theorem headerBlockEq (h : Header) : headerBlock h = wireLines (headerLines h) := by
  induction h with
  | nil => rfl
  | cons kv rest ih =>
    obtain ⟨k, vs⟩ := kv
    simp [headerBlock, headerLines, wireLinesAppend, valueLinesEq, ih]

/-- There is exactly one header line per received header value. -/
theorem headerLinesLength (h : Header) :
    (headerLines h).length = countValues h := by
  induction h with
  | nil => rfl
  | cons kv rest ih =>
    obtain ⟨k, vs⟩ := kv
    simp [headerLines, countValues, ih]

/-- C2: the byte block the tunnel writes to the backend is the wire
framing (bare `\n` line endings) of the request line, a `Host` line, one
line per received header value — a key with n values produces n lines —
and a terminating blank line, followed by the request's body stream; and
the successful tunnel writes exactly this stream. -/
theorem tunnelReplayFraming (r : GoRequest) (cs : Str) :
    tunnelBackendStream r cs
      = wireLines ([requestLine r, hostLine r] ++ headerLines r.header ++ [[]])
        ++ r.body ++ cs ∧
    (headerLines r.header).length = countValues r.header ∧
    (websocketProxy (Except.ok ()) true (Except.ok ()) r cs).backendStream
      = some (tunnelBackendStream r cs) := by
  refine ⟨?_, headerLinesLength r.header, rfl⟩
  rw [tunnelBackendStream, tunnelMessage]
  simp [wireLines, wireLinesAppend, headerBlockEq, requestLine, hostLine]

/-- C3: when the dial to the backend fails, the tunnel proxy answers 500
with the error text over the still-HTTP connection, the client socket is
never hijacked, and no bytes are ever written to a backend — no tunnel is
established. -/
theorem tunnelDialFailure500 (e : Str) (hicap : Bool) (hres : Except Str Unit)
    (r : GoRequest) (cs : Str) :
    websocketProxy (Except.error e) hicap hres r cs
      = ⟨some 500, e ++ nl, false, none⟩ :=
  rfl

/-- Unfolding the handler on a registered host: the mutations run and the
route is chosen by the lowercased `Upgrade` header of the (mutated)
request, which agrees with the received one. -/
theorem handlerFound (reg : Str → Option Str) (r : GoRequest) (b : Str)
    (hfound : reg (stripPort r.host) = some b) :
    handler reg r
      = if toLowerStr (hGet r.header upgradeKey) = websocketLit
        then Dispatch.tunnel (upstreamURL b r.requestURI) (mutateRequest r)
        else Dispatch.forward (upstreamURL b r.requestURI) (mutateRequest r) := by
  simp only [handler, hfound]
  rw [hGetUpgradeMutate]

/-- C1: for every inbound request whose (port-stripped) hostname is
registered, the dispatcher inspects the `Upgrade` header
case-insensitively — when its lowercased value is `websocket` the request
is routed to the tunnel proxy with the computed upstream URL, and
otherwise to the HTTP forwarder. -/
theorem handlerRoutesByUpgrade (reg : Str → Option Str) (r : GoRequest) (b : Str)
    (hfound : reg (stripPort r.host) = some b) :
    (toLowerStr (hGet r.header upgradeKey) = websocketLit →
      handler reg r = Dispatch.tunnel (upstreamURL b r.requestURI) (mutateRequest r)) ∧
    (toLowerStr (hGet r.header upgradeKey) ≠ websocketLit →
      handler reg r = Dispatch.forward (upstreamURL b r.requestURI) (mutateRequest r)) := by
  rw [handlerFound reg r b hfound]
  constructor
  · intro h; rw [if_pos h]
  · intro h; rw [if_neg h]

/-- C1 witness: a request for registered `a.com:443` carrying
`Upgrade: WebSocket` (mixed case) is routed to the tunnel proxy. -/
theorem handlerRoutesByUpgradeWitness :
    handler (registryOf demoZones1 demoBackend1).1 demoReqUpgrade
      = Dispatch.tunnel (upstreamURL tgt80 demoReqUpgrade.requestURI)
          (mutateRequest demoReqUpgrade) :=
  (handlerRoutesByUpgrade (registryOf demoZones1 demoBackend1).1 demoReqUpgrade tgt80
    (by decide)).1 (by decide)

/-- C5: for every request to a registered host the dispatched request has
`X-Forwarded-Proto` overwritten to exactly `{"https"}` and the
port-stripped client address appended to (not replacing) the received
`X-Forwarded-For` chain, and that request is what reaches the tunnel or
the forwarder. -/
theorem forwardedHeadersRewrite (reg : Str → Option Str) (r : GoRequest) (b : Str)
    (hfound : reg (stripPort r.host) = some b) :
    hGetAll (mutateRequest r).header xfpKey = [httpsVal] ∧
    hGetAll (mutateRequest r).header xffKey
      = hGetAll r.header xffKey ++ [stripPort r.remoteAddr] ∧
    (handler reg r
        = Dispatch.tunnel (upstreamURL b r.requestURI) (mutateRequest r) ∨
      handler reg r
        = Dispatch.forward (upstreamURL b r.requestURI) (mutateRequest r)) := by
  refine ⟨(mutateRequestHeaders r).1, (mutateRequestHeaders r).2, ?_⟩
  rw [handlerFound reg r b hfound]
  by_cases hc : toLowerStr (hGet r.header upgradeKey) = websocketLit
  · left; rw [if_pos hc]
  · right; rw [if_neg hc]

/-- C5 witness: the plain demo request (which already carries an
`X-Forwarded-For: 9.9.9.9`) is forwarded with `X-Forwarded-Proto: https`
and the appended client address. -/
theorem forwardedHeadersRewriteWitness :
    hGetAll (mutateRequest demoReqPlain).header xfpKey = [httpsVal] ∧
    hGetAll (mutateRequest demoReqPlain).header xffKey
      = hGetAll demoReqPlain.header xffKey ++ [stripPort demoReqPlain.remoteAddr] ∧
    (handler (registryOf demoZones1 demoBackend1).1 demoReqPlain
        = Dispatch.tunnel (upstreamURL tgt80 demoReqPlain.requestURI)
            (mutateRequest demoReqPlain) ∨
      handler (registryOf demoZones1 demoBackend1).1 demoReqPlain
        = Dispatch.forward (upstreamURL tgt80 demoReqPlain.requestURI)
            (mutateRequest demoReqPlain)) :=
  forwardedHeadersRewrite (registryOf demoZones1 demoBackend1).1 demoReqPlain tgt80
    (by decide)

/-- C6: a request whose port-stripped hostname is not registered is
answered with status 501 and a body naming the rejected hostname, and the
handler performs no forwarding and no tunneling. -/
theorem unknownHost501 (reg : Str → Option Str) (r : GoRequest)
    (h : reg (stripPort r.host) = none) :
    handler reg r = Dispatch.notFound 501 (stripPort r.host ++ notFoundMsg) ∧
    (∃ pre post, stripPort r.host ++ notFoundMsg = pre ++ stripPort r.host ++ post) ∧
    (∀ u r2, handler reg r ≠ Dispatch.tunnel u r2 ∧
      handler reg r ≠ Dispatch.forward u r2) := by
  have he : handler reg r = Dispatch.notFound 501 (stripPort r.host ++ notFoundMsg) := by
    simp only [handler, h]
  refine ⟨he, ⟨[], notFoundMsg, by simp⟩, ?_⟩
  intro u r2
  rw [he]
  exact ⟨by simp, by simp⟩

/-- C6 witness: dispatching `evil.test:443` against the demo registry
yields a 501 whose body starts with `evil.test`. -/
theorem unknownHost501Witness :
    handler (registryOf demoZones1 demoBackend1).1 demoReqEvil
      = Dispatch.notFound 501 (evilHost ++ notFoundMsg) :=
  (unknownHost501 (registryOf demoZones1 demoBackend1).1 demoReqEvil (by decide)).1

/-- C7: for every non-upgrade request to a registered host, after running
any default director the overridden director forces the outbound request's
Host back to the port-stripped inbound hostname and its target URL back to
the dispatcher's upstream URL. -/
theorem directorForcesHostAndURL (reg : Str → Option Str) (r : GoRequest)
    (b u : Str) (r2 : GoRequest)
    (hreg : reg (stripPort r.host) = some b)
    (h : handler reg r = Dispatch.forward u r2) :
    u = upstreamURL b r.requestURI ∧
    r2.host = stripPort r.host ∧
    (∀ dd q, (applyDirector dd r2.host u q).host = stripPort r.host ∧
      (applyDirector dd r2.host u q).url = u) := by
  rw [handlerFound reg r b hreg] at h
  by_cases hc : toLowerStr (hGet r.header upgradeKey) = websocketLit
  · rw [if_pos hc] at h
    exact absurd h (by simp)
  · rw [if_neg hc] at h
    injection h with hu hr2
    have hhost : r2.host = stripPort r.host := by rw [← hr2]; rfl
    refine ⟨hu.symm, hhost, ?_⟩
    intro dd q
    constructor
    · show (applyDirector dd r2.host u q).host = stripPort r.host
      have he : (applyDirector dd r2.host u q).host = r2.host := rfl
      rw [he, hhost]
    · rfl

/-- C7 witness: on the plain demo request, even a director that clobbers
host and URL is overridden back to `a.com` and the computed upstream URL. -/
theorem directorForcesHostAndURLWitness :
    (applyDirector demoDD (mutateRequest demoReqPlain).host
        (upstreamURL tgt80 demoReqPlain.requestURI) demoOutReq).host
      = stripPort demoReqPlain.host ∧
    (applyDirector demoDD (mutateRequest demoReqPlain).host
        (upstreamURL tgt80 demoReqPlain.requestURI) demoOutReq).url
      = upstreamURL tgt80 demoReqPlain.requestURI :=
  (directorForcesHostAndURL (registryOf demoZones1 demoBackend1).1 demoReqPlain tgt80
    (upstreamURL tgt80 demoReqPlain.requestURI) (mutateRequest demoReqPlain)
    (by decide) (by decide)).2.2 demoDD demoOutReq

/-- C4: for every request dispatched to a registered host the effective
upstream URL is the stored backend target, exactly one slash, and the
slash-stripped request URI: the stored target never ends in a slash, the
stripped URI never starts with one, and any number of leading slashes on
the URI is absorbed. -/
theorem upstreamSingleSlash (doms bk : Str) (r : GoRequest) (b u : Str)
    (r2 : GoRequest)
    (hreg : (registryOf doms bk).1 (stripPort r.host) = some b)
    (h : handler (registryOf doms bk).1 r = Dispatch.forward u r2 ∨
      handler (registryOf doms bk).1 r = Dispatch.tunnel u r2) :
    u = b ++ '/' :: trimLeftSlash r.requestURI ∧
    (∀ a, b.getLast? = some a → a ≠ '/') ∧
    (∀ a, (trimLeftSlash r.requestURI).head? = some a → a ≠ '/') ∧
    (∀ n, trimLeftSlash (List.replicate n '/' ++ r.requestURI)
      = trimLeftSlash r.requestURI) := by
  have hu : u = upstreamURL b r.requestURI := by
    rcases h with h | h
    · rw [handlerFound _ r b hreg] at h
      by_cases hc : toLowerStr (hGet r.header upgradeKey) = websocketLit
      · rw [if_pos hc] at h; exact absurd h (by simp)
      · rw [if_neg hc] at h; injection h with hu2 _; exact hu2.symm
    · rw [handlerFound _ r b hreg] at h
      by_cases hc : toLowerStr (hGet r.header upgradeKey) = websocketLit
      · rw [if_pos hc] at h; injection h with hu2 _; exact hu2.symm
      · rw [if_neg hc] at h; exact absurd h (by simp)
  refine ⟨by rw [hu]; rfl, ?_, fun a ha => trimLeftSlashHead _ a ha,
    fun n => trimLeftSlashReplicate n _⟩
  obtain ⟨t, ht⟩ := registryValues doms bk (stripPort r.host) b hreg
  rw [ht]
  exact fun a ha => fixUrlLast t a ha

/-- C4 witness: with the trailing-slash declaration `a.com->:9000/` a
request for `/foo?x=1` reaches the backend as
`http://localhost:9000/foo?x=1`. -/
theorem upstreamSingleSlashWitness :
    upstreamURL tgt9000 demoReqPlain.requestURI
      = tgt9000 ++ '/' :: trimLeftSlash demoReqPlain.requestURI :=
  (upstreamSingleSlash demoZones3 demoBackend1 demoReqPlain tgt9000
    (upstreamURL tgt9000 demoReqPlain.requestURI) (mutateRequest demoReqPlain)
    (by decide) (Or.inl (by decide))).1
